import Mathlib

/-!
Verification development for the cocktail-advisor recommendation core.

Modelling conventions (shallow embedding of the Python source):
  - Python floats are modelled as exact rationals; every score and distance in the
    source is a sum of decimal literals, so order and equality facts proved over
    the rationals are the intended idealisation of the float computation.
  - Python strings are Lean strings; the builtins str.lower and str.strip are
    modelled at the ASCII level by pyLower and pyStrip below, and the Python
    substring test (the in operator on strings) by strContains.
  - The Redis record store is an association list from integer keys to cocktail
    records together with an availability flag; an unavailable store makes every
    operation fail, which models the StoreUnavailable condition.
  - The FAISS IndexFlatL2 index is the list of stored vectors in insertion
    order; search is an exact scan returning squared euclidean distances in
    ascending order, ties kept in insertion order.
  - Python exceptions are modelled with Except; a try/except block that returns
    a fallback value becomes a match on the Except result.
  - The stable sort used by sorted(..., key=..., reverse=True) is modelled by a
    stable insertion sort; stable sorts of a list under a total preorder agree,
    so this is the unique order the source produces.
-/

/-- ASCII lower casing of one character, the model of Python lower on chars. -/
def lowerChar (c : Char) : Char :=
  if 65 ≤ c.toNat ∧ c.toNat ≤ 90 then Char.ofNat (c.toNat + 32) else c

/-- Whitespace test used by the model of Python str.strip. -/
def isSpaceChar (c : Char) : Bool :=
  c == ' ' || c == '\t' || c == '\n' || c == '\r'

/-- Remove leading and trailing whitespace from a character list. -/
def stripList (l : List Char) : List Char :=
  (((l.dropWhile isSpaceChar).reverse).dropWhile isSpaceChar).reverse

/-- Model of Python str.strip. -/
def pyStrip (s : String) : String :=
  String.mk (stripList s.data)

/-- Model of Python str.lower, at the ASCII level. -/
def pyLower (s : String) : String :=
  String.mk (s.data.map lowerChar)

/-- Does the first list start with the second list as a leading segment. -/
def listStartsWith : List Char → List Char → Bool
  | _, [] => true
  | [], _ :: _ => false
  | a :: as, b :: bs => a == b && listStartsWith as bs

/-- Does the first list contain the second list as a contiguous segment. -/
def listContainsSeg (haystack needle : List Char) : Bool :=
  match haystack with
  | [] => listStartsWith ([] : List Char) needle
  | _ :: bs => listStartsWith haystack needle || listContainsSeg bs needle

/-- Model of the Python expression needle in haystack on strings. -/
def strContains (haystack needle : String) : Bool :=
  listContainsSeg haystack.data needle.data

/-- Model of CocktailIngredient from app/models/schemas.py. -/
structure CocktailIngredient where
  name : String
  measure : Option String := none
deriving DecidableEq

/-- Model of Cocktail from app/models/schemas.py. -/
structure Cocktail where
  id : Nat
  name : String
  alcoholic : Bool := true
  category : String := ""
  glassType : String := ""
  instructions : String := ""
  thumbnailUrl : Option String := none
  ingredients : List CocktailIngredient
  tags : List String := []
  complexityScore : ℚ := 0
  popularityScore : ℚ := 0
deriving DecidableEq

/-- Model of UserPreference from app/models/schemas.py.
The last_updated timestamp plays no part in any behaviour modelled here. -/
structure UserPreference where
  userId : String
  favoriteIngredients : List String := []
  favoriteCocktails : List String := []
  allergies : List String := []
  preferredAlcoholTypes : List String := []
deriving DecidableEq

/-- Model of the clean_list_items validator in app/models/schemas.py: keep the
items whose strip is nonempty and replace each by its strip lower cased. -/
def cleanListItems (v : List String) : List String :=
  (v.filter (fun item => pyStrip item ≠ "")).map (fun item => pyLower (pyStrip item))

/-- Pydantic validation of a UserPreference record, as the source declares it:
the clean_list_items validator is attached to favorite_ingredients, allergies
and preferred_alcohol_types but not to favorite_cocktails. -/
def mkUserPreference (uid : String) (favIng favCock allg prefAlc : List String) :
    UserPreference :=
  { userId := uid
    favoriteIngredients := cleanListItems favIng
    favoriteCocktails := favCock
    allergies := cleanListItems allg
    preferredAlcoholTypes := cleanListItems prefAlc }

/-- One favorite ingredient entry matches the cocktail when some ingredient
name equals it after lower casing, per line 164 of cocktail_service.py. -/
def ingMatchesFavorite (c : Cocktail) (ing : String) : Bool :=
  c.ingredients.any (fun i => pyLower i.name == pyLower ing)

/-- The allergy exclusion test of lines 168 to 171 of cocktail_service.py:
some allergy term is a substring of some ingredient name, lower cased. -/
def allergyHit (c : Cocktail) (prefs : UserPreference) : Bool :=
  prefs.allergies.any
    (fun a => c.ingredients.any (fun i => strContains (pyLower i.name) (pyLower a)))

/-- The preferred alcohol test of lines 175 to 178 of cocktail_service.py. -/
def alcoholHit (c : Cocktail) (prefs : UserPreference) : Bool :=
  prefs.preferredAlcoholTypes.any
    (fun p => c.ingredients.any (fun i => strContains (pyLower i.name) (pyLower p)))

/-- The score accumulated for one cocktail by _apply_user_preferences, in the
order the source computes it: a 3/10 bonus inside the loop over the favorite
ingredients for each favorite that matches, then 2/10 for a preferred alcohol
hit, then 5/10 when the cocktail name is a member of favorite_cocktails. -/
def cocktailScore (c : Cocktail) (prefs : UserPreference) : ℚ :=
  let favScore :=
    prefs.favoriteIngredients.foldl
      (fun s ing => if ingMatchesFavorite c ing then s + 3/10 else s) 0
  let s1 := if alcoholHit c prefs then favScore + 2/10 else favScore
  if prefs.favoriteCocktails.contains c.name then s1 + 5/10 else s1

/-- The scored survivor list built by the loop of _apply_user_preferences: the
cocktails that trip the allergy test are skipped by continue, every other
cocktail is appended with its score, in input order. -/
def scoredCocktails (cs : List Cocktail) (prefs : UserPreference) :
    List (Cocktail × ℚ) :=
  (cs.filter (fun c => !allergyHit c prefs)).map (fun c => (c, cocktailScore c prefs))

/-- Stable insertion into a list: x is placed before the first element y with
goesBefore x y true, so earlier input stays ahead of equal keys. -/
def insertStable (goesBefore : α → α → Bool) (x : α) : List α → List α
  | [] => [x]
  | y :: ys => if goesBefore x y then x :: y :: ys else y :: insertStable goesBefore x ys

/-- Stable insertion sort; for a total preorder this is the unique stable
order, hence the order Python sorted produces. -/
def sortStable (goesBefore : α → α → Bool) : List α → List α
  | [] => []
  | x :: xs => insertStable goesBefore x (sortStable goesBefore xs)

/-- Descending order on scored pairs: x goes before y when the score of y is
at most the score of x.  With stability this models
sorted(scored_cocktails, key=lambda x: x[1], reverse=True). -/
def scoreDescBefore (x y : Cocktail × ℚ) : Bool :=
  decide (y.2 ≤ x.2)

/-- Model of _apply_user_preferences, lines 151 to 190 of cocktail_service.py:
score and filter, sort stably by descending score, drop the scores. -/
def applyUserPreferences (cs : List Cocktail) (prefs : UserPreference) :
    List Cocktail :=
  (sortStable scoreDescBefore (scoredCocktails cs prefs)).map Prod.fst

/-- Model of the Redis client: an association list from the integer key of a
cocktail record to the record, newest entry first, plus an availability flag.
Record expiry is not modelled; an expired record behaves like an absent key. -/
structure RedisState where
  available : Bool := true
  entries : List (Nat × Cocktail) := []
deriving DecidableEq

/-- Model of a Redis set on key cocktail colon id: prepend the entry, or fail
when the store is unavailable. -/
def redisSet (r : RedisState) (k : Nat) (c : Cocktail) : Except Unit RedisState :=
  if r.available then .ok { r with entries := (k, c) :: r.entries } else .error ()

/-- Model of a Redis get: the newest entry under the key, none when absent,
failure when the store is unavailable. -/
def redisGet (r : RedisState) (k : Nat) : Except Unit (Option Cocktail) :=
  if r.available then .ok ((r.entries.find? (fun e => e.1 == k)).map Prod.snd)
  else .error ()

/-- Model of VectorStore from app/database/vector_store.py: the FAISS flat
index is the list of stored embedding vectors in insertion order, next to the
Redis record store. -/
structure VectorStoreState where
  redis : RedisState := {}
  vectors : List (List ℚ) := []
deriving DecidableEq

/-- Squared euclidean distance, the metric of faiss.IndexFlatL2. -/
def sqDist (u v : List ℚ) : ℚ :=
  (List.zipWith (fun a b => (a - b) ^ 2) u v).sum

/-- Ascending order on distance and index pairs for the FAISS search result,
ties kept in index order. -/
def distAscBefore (x y : ℚ × Nat) : Bool :=
  decide (x.1 ≤ y.1)

/-- Model of the FAISS flat index search: every stored vector paired with its
squared distance to the query and its insertion index, sorted by ascending
distance, truncated to n results.  Fewer than n pairs come back when the index
holds fewer vectors. -/
def searchIndex (vectors : List (List ℚ)) (q : List ℚ) (n : Nat) : List (ℚ × Nat) :=
  (sortStable distAscBefore (vectors.enum.map (fun p => (sqDist q p.2, p.1)))).take n

/-- Default of settings.MIN_SIMILARITY_SCORE in app/config.py. -/
def minSimilarityScore : ℚ := 7/10

/-- The result collection loop of find_similar_cocktails, lines 161 to 176 of
vector_store.py: walk the search hits; skip a hit below the similarity
threshold; look the hit index up in Redis, letting a store failure escape the
loop; append the record when found; stop once k results are collected. -/
def collectSimilar (r : RedisState) (k : Nat) (minSim : ℚ)
    (acc : List (Cocktail × ℚ)) : List (ℚ × Nat) → Except Unit (List (Cocktail × ℚ))
  | [] => .ok acc
  | (d, idx) :: rest =>
    let sim := 1 / (1 + d)
    if sim < minSim then collectSimilar r k minSim acc rest
    else
      match redisGet r idx with
      | .error e => .error e
      | .ok none =>
        if k ≤ acc.length then .ok acc else collectSimilar r k minSim acc rest
      | .ok (some c) =>
        if k ≤ acc.length + 1 then .ok (acc ++ [(c, sim)])
        else collectSimilar r k minSim (acc ++ [(c, sim)]) rest

/-- The body of the try block of find_similar_cocktails: search the index for
k times two hits, then run the collection loop. -/
def findSimilarTry (st : VectorStoreState) (q : List ℚ) (k : Nat) (minSim : ℚ) :
    Except Unit (List (Cocktail × ℚ)) :=
  collectSimilar st.redis k minSim [] (searchIndex st.vectors q (k * 2))

/-- Model of find_similar_cocktails, lines 145 to 182 of vector_store.py.  The
min_similarity argument defaults through a Python or expression, so an absent
or zero argument falls back to settings.MIN_SIMILARITY_SCORE; any exception in
the body is caught and an empty list returned. -/
def findSimilarCocktails (st : VectorStoreState) (q : List ℚ) (k : Nat)
    (minSim? : Option ℚ) : List (Cocktail × ℚ) :=
  let minSim :=
    match minSim? with
    | some m => if m = 0 then minSimilarityScore else m
    | none => minSimilarityScore
  match findSimilarTry st q k minSim with
  | .ok l => l
  | .error _ => []

/-- Model of add_cocktail_embeddings, lines 105 to 143 of vector_store.py:
reject a length mismatch, append every embedding row to the FAISS index and
write every record to Redis under the key built from the cocktail id field.
The internal batch split of one thousand and the periodic index save have no
observable effect on the modelled state. -/
def addCocktailEmbeddings (st : VectorStoreState) (cocktails : List Cocktail)
    (embeddings : List (List ℚ)) : Except Unit VectorStoreState :=
  if cocktails.length ≠ embeddings.length then .error ()
  else
    match cocktails.foldlM (fun r c => redisSet r c.id c) st.redis with
    | .error e => .error e
    | .ok redis1 => .ok { redis := redis1, vectors := st.vectors ++ embeddings }

/-- An embedding provider outcome: the query text either embeds to a vector or
the provider call raises, per generate_embeddings of llm_service.py which
re-raises failures to its caller. -/
def EmbedOracle : Type := String → Except Unit (List ℚ)

/-- The body of the try block of recommend_cocktails, lines 126 to 145 of
cocktail_service.py: embed the query, search for limit times two candidates,
apply the preference pass when preferences are supplied, truncate to limit. -/
def recommendCocktailsTry (embed : EmbedOracle) (st : VectorStoreState)
    (query : String) (userPrefs : Option UserPreference) (limit : Nat) :
    Except Unit (List Cocktail) :=
  match embed query with
  | .error e => .error e
  | .ok qv =>
    let sims := findSimilarCocktails st qv (limit * 2) none
    let filtered :=
      match userPrefs with
      | some prefs => applyUserPreferences (sims.map Prod.fst) prefs
      | none => sims.map Prod.fst
    .ok (filtered.take limit)

/-- Model of recommend_cocktails, lines 119 to 149 of cocktail_service.py: the
whole body sits in a try block whose except branch returns an empty list, so
no failure of any step reaches the caller. -/
def recommendCocktails (embed : EmbedOracle) (st : VectorStoreState)
    (query : String) (userPrefs : Option UserPreference) (limit : Nat) :
    List Cocktail :=
  match recommendCocktailsTry embed st query userPrefs limit with
  | .ok l => l
  | .error _ => []

/-- The method names the VectorStore class of vector_store.py defines. -/
def vectorStoreMethods : List String :=
  ["initialize", "load_indexes", "save_indexes", "add_cocktail_embeddings",
   "find_similar_cocktails", "get_redis_connection", "cleanup"]

/-- Attribute lookup of get_user_preferences on VectorStore: the class defines
no such method, so the lookup yields nothing and a call raises AttributeError. -/
def vectorStoreGetUserPrefsMethod : Option (String → Option UserPreference) :=
  none

/-- Attribute lookup of update_user_preferences on VectorStore: the class
defines no such method either. -/
def vectorStoreUpdateUserPrefsMethod :
    Option (String → UserPreference → List ℚ → Unit) :=
  none

/-- Model of CocktailService.get_user_preferences, lines 259 to 268 of
cocktail_service.py: dispatch to the store method when the attribute exists;
the AttributeError raised by the missing attribute is caught and none
returned. -/
def serviceGetUserPreferences (uid : String) : Option UserPreference :=
  match vectorStoreGetUserPrefsMethod with
  | some f => f uid
  | none => none

/-- The preference text recommend text built at lines 278 to 282 of
cocktail_service.py before embedding. -/
def prefText (p : UserPreference) : String :=
  String.intercalate " " p.favoriteIngredients ++ " " ++
  String.intercalate " " p.favoriteCocktails ++ " " ++
  String.intercalate " " p.preferredAlcoholTypes

/-- Model of CocktailService.update_user_preferences, lines 270 to 296 of
cocktail_service.py: embed the preference text, dispatch to the store method,
return true on success; any exception, an embedding failure or the
AttributeError from the missing attribute, is caught and false returned. -/
def serviceUpdateUserPreferences (embed : EmbedOracle) (uid : String)
    (p : UserPreference) : Bool :=
  match embed (prefText p) with
  | .error _ => false
  | .ok e =>
    match vectorStoreUpdateUserPrefsMethod with
    | some f => let _ := f uid p e; true
    | none => false

/-- Model of search_cocktails, lines 226 to 257 of cocktail_service.py: embed,
search for limit candidates, and when a user id is supplied consult the stored
preferences through get_user_preferences, personalising only when a record
comes back. -/
def searchCocktails (embed : EmbedOracle) (st : VectorStoreState) (query : String)
    (limit : Nat) (userId : Option String) : List Cocktail :=
  match
    (match embed query with
     | .error e => .error e
     | .ok qv =>
       let sims := findSimilarCocktails st qv limit none
       match userId with
       | some uid =>
         match serviceGetUserPreferences uid with
         | some prefs =>
           Except.ok ((applyUserPreferences (sims.map Prod.fst) prefs).take limit)
         | none => Except.ok ((sims.map Prod.fst).take limit)
       | none => Except.ok ((sims.map Prod.fst).take limit) :
       Except Unit (List Cocktail))
  with
  | .ok l => l
  | .error _ => []

/-- The candidate cocktails surfaced by the index search inside
recommend_cocktails before the preference pass; per the glossary of the spec a
candidate is a cocktail surfaced by the index search, so these are the
resolvable candidates above the similarity threshold. -/
def searchCandidates (st : VectorStoreState) (qv : List ℚ) (limit : Nat) :
    List Cocktail :=
  (findSimilarCocktails st qv (limit * 2) none).map Prod.fst

/-- The non excluded resolvable candidates of a recommend_cocktails call: the
candidates surfaced by the search, after the preference pass when preferences
are supplied. -/
def nonExcludedCandidates (st : VectorStoreState) (qv : List ℚ)
    (userPrefs : Option UserPreference) (limit : Nat) : List Cocktail :=
  match userPrefs with
  | some prefs => applyUserPreferences (searchCandidates st qv limit) prefs
  | none => searchCandidates st qv limit

instance [DecidableEq ε] [DecidableEq α] : DecidableEq (Except ε α) := fun x y =>
  match x, y with
  | .error a, .error b =>
    decidable_of_iff (a = b) ⟨fun h => h ▸ rfl, fun h => by injection h⟩
  | .error _, .ok _ => isFalse (fun h => Except.noConfusion h)
  | .ok _, .error _ => isFalse (fun h => Except.noConfusion h)
  | .ok a, .ok b =>
    decidable_of_iff (a = b) ⟨fun h => h ▸ rfl, fun h => by injection h⟩

/-- The scenario cocktail of the spec: Mojito with ingredients rum, lime,
mint and soda. -/
def mojito : Cocktail :=
  { id := 1, name := "Mojito",
    ingredients :=
      [{ name := "rum" }, { name := "lime" }, { name := "mint" }, { name := "soda" }] }

/-- The scenario preferences of the spec: favorite ingredients rum and lime,
no allergies, preferred alcohol type rum, no favorite cocktails. -/
def c1Prefs : UserPreference := mkUserPreference "u1" ["rum", "lime"] [] [] ["rum"]

/-- Preferences whose only content is a mint allergy. -/
def mintPrefs : UserPreference := mkUserPreference "u2" [] [] ["mint"] []

/-- A cocktail whose id differs from its insertion position in the index. -/
def cocktail42 : Cocktail :=
  { id := 42, name := "Margarita", ingredients := [{ name := "tequila" }] }

/-- The store state after inserting cocktail42 with embedding vector (1, 2)
into the empty store: the vector sits at index position zero while the record
sits under the Redis key for id 42. -/
def c5Store : VectorStoreState :=
  { redis := { available := true, entries := [(42, cocktail42)] }, vectors := [[1, 2]] }

/-- A store whose Redis record store is unreachable. -/
def downStore : VectorStoreState :=
  { redis := { available := false, entries := [] }, vectors := [] }

/-- An embedding provider that always fails, the EmbeddingProviderFailure
scenario. -/
def failEmbed : EmbedOracle := fun _ => .error ()

/-- An embedding provider that embeds every text to the vector (1). -/
def unitEmbed : EmbedOracle := fun _ => .ok [1]

/-- A cocktail with no ingredients, used to witness score monotonicity. -/
def plainWater : Cocktail := { id := 2, name := "Water", ingredients := [] }

theorem charToNat_ofNat_valid (n : Nat) (h : n.isValidChar) : (Char.ofNat n).toNat = n := by
  simp [Char.ofNat, h, Char.toNat, Char.ofNatAux, UInt32.toNat, BitVec.toNat_ofNatLt]

theorem toNat_lowerChar (c : Char) :
    (lowerChar c).toNat = if 65 ≤ c.toNat ∧ c.toNat ≤ 90 then c.toNat + 32 else c.toNat := by
  unfold lowerChar
  split
  case isTrue h => exact charToNat_ofNat_valid _ (Or.inl (by omega))
  case isFalse h => rfl

theorem lowerChar_lowerChar (c : Char) : lowerChar (lowerChar c) = lowerChar c := by
  by_cases h : 65 ≤ c.toNat ∧ c.toNat ≤ 90
  · have ht : (lowerChar c).toNat = c.toNat + 32 := by rw [toNat_lowerChar, if_pos h]
    have hcond : ¬ (65 ≤ (lowerChar c).toNat ∧ (lowerChar c).toNat ≤ 90) := by omega
    conv_lhs => rw [lowerChar]
    rw [if_neg hcond]
  · have hc : lowerChar c = c := by rw [lowerChar, if_neg h]
    rw [hc, hc]

theorem isSpaceChar_false_of_toNat {x : Char}
    (h : x.toNat ≠ 32 ∧ x.toNat ≠ 9 ∧ x.toNat ≠ 10 ∧ x.toNat ≠ 13) :
    isSpaceChar x = false := by
  have hne : ∀ c : Char, x.toNat ≠ c.toNat → (x == c) = false := by
    intro c hc
    simp only [beq_eq_false_iff_ne]
    intro hx
    exact hc (by rw [hx])
  simp only [isSpaceChar, Bool.or_eq_false_iff]
  exact ⟨⟨⟨hne ' ' h.1, hne '\t' h.2.1⟩, hne '\n' h.2.2.1⟩, hne '\r' h.2.2.2⟩

theorem isSpaceChar_lowerChar (c : Char) : isSpaceChar (lowerChar c) = isSpaceChar c := by
  by_cases h : 65 ≤ c.toNat ∧ c.toNat ≤ 90
  · have h1 : (lowerChar c).toNat = c.toNat + 32 := by rw [toNat_lowerChar, if_pos h]
    rw [isSpaceChar_false_of_toNat (by omega), isSpaceChar_false_of_toNat (by omega)]
  · rw [lowerChar, if_neg h]

theorem dropWhile_map_lowerChar (l : List Char) :
    (l.map lowerChar).dropWhile isSpaceChar = (l.dropWhile isSpaceChar).map lowerChar := by
  induction l with
  | nil => rfl
  | cons a as ih =>
    simp only [List.map_cons, List.dropWhile_cons, isSpaceChar_lowerChar]
    split
    · exact ih
    · rfl

theorem stripList_map_lowerChar (l : List Char) :
    stripList (l.map lowerChar) = (stripList l).map lowerChar := by
  unfold stripList
  rw [dropWhile_map_lowerChar, ← List.map_reverse, dropWhile_map_lowerChar, ← List.map_reverse]

theorem head?_dropWhile_false {p : α → Bool} {l : List α} {c : α}
    (h : (l.dropWhile p).head? = some c) : p c = false := by
  induction l with
  | nil => simp at h
  | cons a as ih =>
    rw [List.dropWhile_cons] at h
    split at h
    · exact ih h
    case isFalse hpa =>
      simp only [List.head?_cons, Option.some.injEq] at h
      subst h
      exact Bool.eq_false_iff.mpr hpa

theorem dropWhile_eq_self_of_head? {p : α → Bool} {l : List α}
    (h : ∀ c, l.head? = some c → p c = false) : l.dropWhile p = l := by
  cases l with
  | nil => rfl
  | cons a as =>
    rw [List.dropWhile_cons, if_neg]
    simp [h a rfl]

theorem stripList_idem (l : List Char) : stripList (stripList l) = stripList l := by
  set p := isSpaceChar with hp
  set m := l.dropWhile p with hm
  set d := m.reverse.dropWhile p with hd
  have hdd : List.dropWhile p d = d :=
    dropWhile_eq_self_of_head? (fun c hc => head?_dropWhile_false hc)
  have hsplit : m.reverse = m.reverse.takeWhile p ++ d := by
    rw [hd]; exact (List.takeWhile_append_dropWhile p m.reverse).symm
  have hm2 : m = d.reverse ++ (m.reverse.takeWhile p).reverse := by
    have := congrArg List.reverse hsplit
    simpa [List.reverse_append] using this
  have hhead : ∀ c, d.reverse.head? = some c → p c = false := by
    intro c hc
    have : m.head? = some c := by
      rw [hm2, List.head?_append, hc]
      rfl
    exact head?_dropWhile_false (hm ▸ this)
  show (((d.reverse.dropWhile p).reverse).dropWhile p).reverse = d.reverse
  rw [dropWhile_eq_self_of_head? hhead, List.reverse_reverse, hdd]

theorem pyLower_pyLower (s : String) : pyLower (pyLower s) = pyLower s := by
  unfold pyLower
  refine congrArg String.mk ?_
  show ((s.data.map lowerChar).map lowerChar) = s.data.map lowerChar
  rw [List.map_map]
  exact List.map_congr_left (fun a _ => lowerChar_lowerChar a)

theorem pyStrip_pyLower_pyStrip (s : String) :
    pyStrip (pyLower (pyStrip s)) = pyLower (pyStrip s) := by
  unfold pyStrip pyLower
  refine congrArg String.mk ?_
  show stripList ((stripList s.data).map lowerChar) = (stripList s.data).map lowerChar
  rw [stripList_map_lowerChar, stripList_idem]

theorem normalized_of_mem_clean {v : List String} {s : String}
    (h : s ∈ cleanListItems v) : pyLower (pyStrip s) = s := by
  rcases List.mem_map.mp h with ⟨item, _, rfl⟩
  rw [pyStrip_pyLower_pyStrip, pyLower_pyLower]

theorem mem_insertStable {gb : α → α → Bool} {x a : α} :
    ∀ {l : List α}, a ∈ insertStable gb x l ↔ a = x ∨ a ∈ l := by
  intro l
  induction l with
  | nil => simp [insertStable]
  | cons y ys ih =>
    rw [insertStable]
    split
    · simp
    · simp only [List.mem_cons, ih]
      tauto

theorem mem_sortStable {gb : α → α → Bool} {a : α} :
    ∀ {l : List α}, a ∈ sortStable gb l ↔ a ∈ l := by
  intro l
  induction l with
  | nil => simp [sortStable]
  | cons y ys ih =>
    rw [sortStable]
    rw [mem_insertStable]
    simp [ih]

theorem length_insertStable {gb : α → α → Bool} {x : α} :
    ∀ {l : List α}, (insertStable gb x l).length = l.length + 1 := by
  intro l
  induction l with
  | nil => rfl
  | cons y ys ih =>
    rw [insertStable]
    split
    · simp
    · simp [ih]

theorem length_sortStable {gb : α → α → Bool} :
    ∀ {l : List α}, (sortStable gb l).length = l.length := by
  intro l
  induction l with
  | nil => rfl
  | cons y ys ih =>
    rw [sortStable, length_insertStable, ih, List.length_cons]

theorem pairwise_insertStable {gb : α → α → Bool} {R : α → α → Prop}
    (h1 : ∀ a b, gb a b = true → R a b) (h2 : ∀ a b, gb a b = false → R b a)
    (htr : ∀ a b c, R a b → R b c → R a c) {x : α} :
    ∀ {l : List α}, List.Pairwise R l → List.Pairwise R (insertStable gb x l) := by
  intro l hl
  induction l with
  | nil => simp [insertStable]
  | cons y ys ih =>
    rw [insertStable]
    rcases List.pairwise_cons.mp hl with ⟨hy, hys⟩
    split
    case isTrue hgb =>
      refine List.pairwise_cons.mpr ⟨?_, hl⟩
      intro z hz
      rcases List.mem_cons.mp hz with rfl | hz
      · exact h1 _ _ hgb
      · exact htr _ _ _ (h1 _ _ hgb) (hy z hz)
    case isFalse hgb =>
      refine List.pairwise_cons.mpr ⟨?_, ih hys⟩
      intro z hz
      rcases mem_insertStable.mp hz with rfl | hz
      · exact h2 _ _ (Bool.eq_false_iff.mpr hgb)
      · exact hy z hz

theorem pairwise_sortStable {gb : α → α → Bool} {R : α → α → Prop}
    (h1 : ∀ a b, gb a b = true → R a b) (h2 : ∀ a b, gb a b = false → R b a)
    (htr : ∀ a b c, R a b → R b c → R a c) :
    ∀ (l : List α), List.Pairwise R (sortStable gb l) := by
  intro l
  induction l with
  | nil => simp [sortStable]
  | cons y ys ih =>
    rw [sortStable]
    exact pairwise_insertStable h1 h2 htr ih

theorem filter_insertStable_neg {gb : α → α → Bool} {p : α → Bool} {x : α}
    (hx : p x = false) :
    ∀ {l : List α}, (insertStable gb x l).filter p = l.filter p := by
  intro l
  induction l with
  | nil => simp [insertStable, hx]
  | cons y ys ih =>
    rw [insertStable]
    split
    · simp [List.filter_cons, hx]
    · simp only [List.filter_cons, ih]

theorem filter_insertStable_pos {gb : α → α → Bool} {p : α → Bool} {x : α}
    (hx : p x = true) (hall : ∀ y, p y = true → gb x y = true) :
    ∀ {l : List α}, (insertStable gb x l).filter p = x :: l.filter p := by
  intro l
  induction l with
  | nil => simp [insertStable, hx]
  | cons y ys ih =>
    rw [insertStable]
    split
    case isTrue hgb => simp [List.filter_cons, hx]
    case isFalse hgb =>
      have hpy : p y = false := by
        cases hy : p y with
        | false => rfl
        | true => exact absurd (hall y hy) hgb
      simp only [List.filter_cons, hpy, ih]
      simp

theorem filter_sortStable {gb : α → α → Bool} {p : α → Bool}
    (hpp : ∀ x y, p x = true → p y = true → gb x y = true) :
    ∀ (l : List α), (sortStable gb l).filter p = l.filter p := by
  intro l
  induction l with
  | nil => rfl
  | cons y ys ih =>
    rw [sortStable]
    cases hy : p y with
    | false =>
      rw [filter_insertStable_neg hy, ih, List.filter_cons, hy]
      simp
    | true =>
      rw [filter_insertStable_pos hy (fun z hz => hpp y z hy hz), ih,
        List.filter_cons, hy]
      simp

theorem collectSimilar_length_le {r : RedisState} {k : Nat} {m : ℚ} :
    ∀ (l : List (ℚ × Nat)) (acc out : List (Cocktail × ℚ)),
      acc.length < k → collectSimilar r k m acc l = .ok out → out.length ≤ k := by
  intro l
  induction l with
  | nil =>
    intro acc out hlt hok
    rw [collectSimilar] at hok
    injection hok with h
    subst h
    omega
  | cons hd tl ih =>
    intro acc out hlt hok
    obtain ⟨d, idx⟩ := hd
    rw [collectSimilar] at hok
    split at hok
    · exact ih acc out hlt hok
    · split at hok
      · exact absurd hok (by simp)
      · split at hok
        case isTrue hk =>
          injection hok with h
          subst h
          omega
        case isFalse hk =>
          exact ih acc out hlt hok
      · split at hok
        case isTrue hk =>
          injection hok with h
          subst h
          simp only [List.length_append, List.length_cons, List.length_nil]
          omega
        case isFalse hk =>
          refine ih _ out ?_ hok
          simp only [List.length_append, List.length_cons, List.length_nil]
          omega

theorem collectSimilar_minSim_le {r : RedisState} {k : Nat} {m : ℚ} :
    ∀ (l : List (ℚ × Nat)) (acc out : List (Cocktail × ℚ)),
      (∀ p ∈ acc, m ≤ p.2) → collectSimilar r k m acc l = .ok out →
      ∀ p ∈ out, m ≤ p.2 := by
  intro l
  induction l with
  | nil =>
    intro acc out hacc hok
    rw [collectSimilar] at hok
    injection hok with h
    subst h
    exact hacc
  | cons hd tl ih =>
    intro acc out hacc hok
    obtain ⟨d, idx⟩ := hd
    rw [collectSimilar] at hok
    split at hok
    · exact ih acc out hacc hok
    · split at hok
      · exact absurd hok (by simp)
      · split at hok
        case isTrue hk =>
          injection hok with h
          subst h
          exact hacc
        case isFalse hk =>
          exact ih acc out hacc hok
      · have hnew : ∀ p ∈ acc ++ [((by assumption : Cocktail), 1 / (1 + d))], m ≤ p.2 := by
          intro p hp
          rcases List.mem_append.mp hp with hp | hp
          · exact hacc p hp
          · simp only [List.mem_singleton] at hp
            subst hp
            exact le_of_not_lt (by assumption)
        split at hok
        case isTrue hk =>
          injection hok with h
          subst h
          exact hnew
        case isFalse hk =>
          exact ih _ out hnew hok

theorem collectSimilar_unavailable {r : RedisState} {k : Nat} {m : ℚ}
    (hr : r.available = false) :
    ∀ (l : List (ℚ × Nat)) (acc : List (Cocktail × ℚ)),
      collectSimilar r k m acc l = .ok acc ∨ collectSimilar r k m acc l = .error () := by
  intro l
  induction l with
  | nil => intro acc; left; rfl
  | cons hd tl ih =>
    intro acc
    obtain ⟨d, idx⟩ := hd
    rw [collectSimilar]
    split
    · exact ih acc
    · rw [redisGet, hr]
      simp

theorem findSimilar_unavailable {st : VectorStoreState} (hr : st.redis.available = false)
    (q : List ℚ) (k : Nat) (minSim? : Option ℚ) :
    findSimilarCocktails st q k minSim? = [] := by
  rcases collectSimilar_unavailable (k := k)
      (m := match minSim? with
            | some m => if m = 0 then minSimilarityScore else m
            | none => minSimilarityScore)
      hr (searchIndex st.vectors q (k * 2)) [] with h | h <;>
    simp [findSimilarCocktails, findSimilarTry, h]

theorem favFold_eq (c : Cocktail) (favs : List String) (s : ℚ) :
    favs.foldl (fun s ing => if ingMatchesFavorite c ing then s + 3/10 else s) s
      = s + 3/10 * (favs.countP (fun ing => ingMatchesFavorite c ing) : ℚ) := by
  induction favs generalizing s with
  | nil => simp
  | cons a as ih =>
    rw [List.foldl_cons, List.countP_cons]
    cases h : ingMatchesFavorite c a with
    | true =>
      simp only [if_pos (show (true = true) from rfl)]
      rw [ih]
      push_cast
      ring
    | false =>
      simp only [if_neg (show ¬(false = true) by simp)]
      rw [Nat.add_zero]
      exact ih s

theorem cocktailScore_eq (c : Cocktail) (prefs : UserPreference) :
    cocktailScore c prefs =
      3/10 * (prefs.favoriteIngredients.countP (fun ing => ingMatchesFavorite c ing) : ℚ)
      + (if alcoholHit c prefs then 2/10 else 0)
      + (if prefs.favoriteCocktails.contains c.name then 5/10 else 0) := by
  rw [cocktailScore, favFold_eq]
  split <;> split <;> ring

theorem ingMatchesFavorite_append (c : Cocktail) (x : CocktailIngredient) (ing : String)
    (h : ingMatchesFavorite c ing = true) :
    ingMatchesFavorite { c with ingredients := c.ingredients ++ [x] } ing = true := by
  simp only [ingMatchesFavorite] at h ⊢
  rw [List.any_append, h]
  rfl

theorem alcoholHit_append (c : Cocktail) (x : CocktailIngredient) (prefs : UserPreference)
    (h : alcoholHit c prefs = true) :
    alcoholHit { c with ingredients := c.ingredients ++ [x] } prefs = true := by
  simp only [alcoholHit, List.any_eq_true] at h ⊢
  rcases h with ⟨p, hp, i, hi, hstr⟩
  exact ⟨p, hp, i, List.mem_append_left _ hi, hstr⟩

theorem cocktailScore_append_mono (c : Cocktail) (prefs : UserPreference)
    (x : CocktailIngredient) :
    cocktailScore c prefs ≤
      cocktailScore { c with ingredients := c.ingredients ++ [x] } prefs := by
  rw [cocktailScore_eq, cocktailScore_eq]
  have hcount :
      ((prefs.favoriteIngredients.countP (fun ing => ingMatchesFavorite c ing) : ℚ))
        ≤ ((prefs.favoriteIngredients.countP
            (fun ing => ingMatchesFavorite { c with ingredients := c.ingredients ++ [x] } ing) : ℚ)) :=
    Nat.cast_le.mpr
      (List.countP_mono_left (fun ing _ h => ingMatchesFavorite_append c x ing h))
  have hmul : (3:ℚ)/10 * (prefs.favoriteIngredients.countP (fun ing => ingMatchesFavorite c ing) : ℚ)
      ≤ (3:ℚ)/10 * (prefs.favoriteIngredients.countP
          (fun ing => ingMatchesFavorite { c with ingredients := c.ingredients ++ [x] } ing) : ℚ) :=
    mul_le_mul_of_nonneg_left hcount (by norm_num)
  have halc : (if alcoholHit c prefs then (2:ℚ)/10 else 0)
      ≤ (if alcoholHit { c with ingredients := c.ingredients ++ [x] } prefs then (2:ℚ)/10 else 0) := by
    cases h : alcoholHit c prefs with
    | true => rw [alcoholHit_append c x prefs h]
    | false =>
      rw [if_neg (show ¬(false = true) by simp)]
      split <;> norm_num
  have hname : (if prefs.favoriteCocktails.contains c.name then (5:ℚ)/10 else 0)
      = (if prefs.favoriteCocktails.contains
            ({ c with ingredients := c.ingredients ++ [x] } : Cocktail).name then (5:ℚ)/10 else 0) := rfl
  exact add_le_add (add_le_add hmul halc) (le_of_eq hname)

theorem snd_eq_score_of_mem_scored {cs : List Cocktail} {prefs : UserPreference}
    {x : Cocktail × ℚ} (h : x ∈ scoredCocktails cs prefs) :
    x.2 = cocktailScore x.1 prefs := by
  rcases List.mem_map.mp h with ⟨c, _, rfl⟩
  rfl

theorem not_mem_apply_of_allergy {cs : List Cocktail} {prefs : UserPreference}
    {c : Cocktail} (h : allergyHit c prefs = true) :
    c ∉ applyUserPreferences cs prefs := by
  intro hmem
  rcases List.mem_map.mp hmem with ⟨x, hx, rfl⟩
  have hx2 : x ∈ scoredCocktails cs prefs := mem_sortStable.mp hx
  rcases List.mem_map.mp hx2 with ⟨c', hc', rfl⟩
  have hf := (List.mem_filter.mp hc').2
  have h' : allergyHit c' prefs = true := h
  rw [h'] at hf
  simp at hf

theorem map_fst_scored (cs : List Cocktail) (prefs : UserPreference) :
    (scoredCocktails cs prefs).map Prod.fst = cs.filter (fun c => !allergyHit c prefs) := by
  rw [scoredCocktails, List.map_map]
  exact List.map_id _ ▸ List.map_congr_left (fun c _ => rfl)

theorem filter_applyUserPreferences (cs : List Cocktail) (prefs : UserPreference) (q : ℚ) :
    (applyUserPreferences cs prefs).filter (fun c => decide (cocktailScore c prefs = q))
      = (cs.filter (fun c => !allergyHit c prefs)).filter
          (fun c => decide (cocktailScore c prefs = q)) := by
  have hcongr : ∀ (l : List (Cocktail × ℚ)),
      (∀ x ∈ l, x.2 = cocktailScore x.1 prefs) →
      l.filter ((fun c => decide (cocktailScore c prefs = q)) ∘ Prod.fst)
        = l.filter (fun x => decide (x.2 = q)) := by
    intro l hl
    refine List.filter_congr (fun x hx => ?_)
    show decide (cocktailScore x.1 prefs = q) = decide (x.2 = q)
    rw [hl x hx]
  have hmemsorted : ∀ x ∈ sortStable scoreDescBefore (scoredCocktails cs prefs),
      x.2 = cocktailScore x.1 prefs :=
    fun x hx => snd_eq_score_of_mem_scored (mem_sortStable.mp hx)
  have hmemscored : ∀ x ∈ scoredCocktails cs prefs, x.2 = cocktailScore x.1 prefs :=
    fun x hx => snd_eq_score_of_mem_scored hx
  have hpp : ∀ x y : Cocktail × ℚ,
      (fun x : Cocktail × ℚ => decide (x.2 = q)) x = true →
      (fun x : Cocktail × ℚ => decide (x.2 = q)) y = true →
      scoreDescBefore x y = true := by
    intro x y hx hy
    have hx' : x.2 = q := of_decide_eq_true hx
    have hy' : y.2 = q := of_decide_eq_true hy
    exact decide_eq_true (le_of_eq (hy'.trans hx'.symm))
  calc (applyUserPreferences cs prefs).filter (fun c => decide (cocktailScore c prefs = q))
      = ((sortStable scoreDescBefore (scoredCocktails cs prefs)).filter
          ((fun c => decide (cocktailScore c prefs = q)) ∘ Prod.fst)).map Prod.fst := by
        rw [applyUserPreferences, List.filter_map]
    _ = ((sortStable scoreDescBefore (scoredCocktails cs prefs)).filter
          (fun x => decide (x.2 = q))).map Prod.fst := by
        rw [hcongr _ hmemsorted]
    _ = ((scoredCocktails cs prefs).filter (fun x => decide (x.2 = q))).map Prod.fst := by
        rw [filter_sortStable hpp]
    _ = ((scoredCocktails cs prefs).filter
          ((fun c => decide (cocktailScore c prefs = q)) ∘ Prod.fst)).map Prod.fst := by
        rw [hcongr _ hmemscored]
    _ = (cs.filter (fun c => !allergyHit c prefs)).filter
          (fun c => decide (cocktailScore c prefs = q)) := by
        rw [← List.filter_map, map_fst_scored]

theorem pairwise_applyUserPreferences (cs : List Cocktail) (prefs : UserPreference) :
    (applyUserPreferences cs prefs).Pairwise
      (fun a b => cocktailScore b prefs ≤ cocktailScore a prefs) := by
  rw [applyUserPreferences, List.pairwise_map]
  have hpair : (sortStable scoreDescBefore (scoredCocktails cs prefs)).Pairwise
      (fun x y : Cocktail × ℚ => y.2 ≤ x.2) :=
    @pairwise_sortStable (Cocktail × ℚ) scoreDescBefore (fun x y => y.2 ≤ x.2)
      (fun a b h => of_decide_eq_true h)
      (fun a b h => le_of_not_le (of_decide_eq_false h))
      (fun a b c hab hbc => le_trans hbc hab)
      (scoredCocktails cs prefs)
  refine hpair.imp_of_mem ?_
  intro a b ha hb hR
  rw [← snd_eq_score_of_mem_scored (mem_sortStable.mp ha),
    ← snd_eq_score_of_mem_scored (mem_sortStable.mp hb)]
  exact hR

theorem mojitoScore_eq : cocktailScore mojito c1Prefs = 4/5 := by
  have h1 : c1Prefs.favoriteIngredients = ["rum", "lime"] := by decide
  have h2 : ingMatchesFavorite mojito "rum" = true := by decide
  have h3 : ingMatchesFavorite mojito "lime" = true := by decide
  have h4 : alcoholHit mojito c1Prefs = true := by decide
  have h5 : mojito.name ∉ c1Prefs.favoriteCocktails := by decide
  simp [cocktailScore, h1, h2, h3, h4, h5]
  norm_num

/-- C1, counterexample: on the scenario input of the claim the source scorer
returns 4/5, not the claimed 1/2, because the 3/10 bonus is added once per
matching favorite ingredient inside the loop over favorite_ingredients. -/
theorem c1_scenario_score_counterexample :
    cocktailScore mojito c1Prefs ≠ 1/2 ∧ cocktailScore mojito c1Prefs = 4/5 := by
  refine ⟨?_, mojitoScore_eq⟩
  rw [mojitoScore_eq]
  norm_num

/-- C1, amended: the favorite ingredient bonus is 3/10 per favorite entry that
matches some ingredient, so the score decomposes as 3/10 times the count of
matching favorites, plus 2/10 for a preferred alcohol hit, plus 5/10 for a
favorite cocktail name; on the scenario input the score is 8/10. -/
theorem c1_favorite_bonus_per_match :
    (∀ (c : Cocktail) (prefs : UserPreference),
      cocktailScore c prefs =
        3/10 * (prefs.favoriteIngredients.countP (fun ing => ingMatchesFavorite c ing) : ℚ)
        + (if alcoholHit c prefs then 2/10 else 0)
        + (if prefs.favoriteCocktails.contains c.name then 5/10 else 0))
    ∧ cocktailScore mojito c1Prefs = 4/5 :=
  ⟨cocktailScore_eq, mojitoScore_eq⟩

/-- C2: allergy exclusion is absolute; a cocktail with an ingredient whose
lower cased name contains a lower cased allergy term of the preferences never
appears in the output of the preference pass. -/
theorem c2_allergy_exclusion_absolute :
    ∀ (cs : List Cocktail) (prefs : UserPreference) (c : Cocktail),
      (∃ i ∈ c.ingredients, ∃ a ∈ prefs.allergies,
        strContains (pyLower i.name) (pyLower a) = true) →
      c ∉ applyUserPreferences cs prefs := by
  intro cs prefs c h
  refine not_mem_apply_of_allergy ?_
  rcases h with ⟨i, hi, a, ha, hs⟩
  exact List.any_eq_true.mpr ⟨a, ha, List.any_eq_true.mpr ⟨i, hi, hs⟩⟩

/-- C2, witness: the Mojito carries mint, so a mint allergy removes it from
the ranked output even when it is the only candidate. -/
theorem c2_allergy_exclusion_witness :
    (∃ i ∈ mojito.ingredients, ∃ a ∈ mintPrefs.allergies,
      strContains (pyLower i.name) (pyLower a) = true)
    ∧ mojito ∉ applyUserPreferences [mojito] mintPrefs :=
  ⟨by decide, c2_allergy_exclusion_absolute [mojito] mintPrefs mojito (by decide)⟩

/-- C3, counterexample: an embedding provider failure does not propagate out
of recommend_cocktails; the try body fails but the except branch turns the
failure into an empty list, so the caller sees a value, not an exception. -/
theorem c3_embed_failure_swallowed_counterexample :
    recommendCocktailsTry failEmbed {} "refreshing citrus drink" none 5 = .error ()
    ∧ recommendCocktails failEmbed {} "refreshing citrus drink" none 5 = [] :=
  ⟨rfl, rfl⟩

/-- C3, amended: both failure modes are swallowed symmetrically; an embedding
provider failure and an unavailable record store each make recommend_cocktails
return an empty list to its caller, and neither is propagated. -/
theorem c3_failures_swallowed :
    ∀ (embed : EmbedOracle) (st : VectorStoreState) (q : String)
      (prefs : Option UserPreference) (limit : Nat),
      (embed q = .error () → recommendCocktails embed st q prefs limit = [])
      ∧ (st.redis.available = false → recommendCocktails embed st q prefs limit = []) := by
  intro embed st q prefs limit
  constructor
  · intro hfail
    simp [recommendCocktails, recommendCocktailsTry, hfail]
  · intro hdown
    cases hq : embed q with
    | error e => simp [recommendCocktails, recommendCocktailsTry, hq]
    | ok qv =>
      cases prefs <;>
        simp [recommendCocktails, recommendCocktailsTry, hq,
          findSimilar_unavailable hdown, applyUserPreferences, scoredCocktails, sortStable]

/-- C3, witness: the swallowing theorem applied to a failing provider over the
empty store and to a working provider over an unreachable store. -/
theorem c3_failures_swallowed_witness :
    recommendCocktails failEmbed {} "q" none 5 = []
    ∧ recommendCocktails unitEmbed downStore "q" none 5 = [] :=
  ⟨(c3_failures_swallowed failEmbed {} "q" none 5).1 rfl,
   (c3_failures_swallowed unitEmbed downStore "q" none 5).2 rfl⟩

/-- C4: for a positive k, find_similar_cocktails returns at most k results
and every returned pair has similarity at least the requested minimum. -/
theorem c4_search_bounds :
    ∀ (st : VectorStoreState) (q : List ℚ) (k : Nat) (minSim : ℚ), 0 < k →
      (findSimilarCocktails st q k (some minSim)).length ≤ k
      ∧ ∀ p ∈ findSimilarCocktails st q k (some minSim), minSim ≤ p.2 := by
  intro st q k minSim hk
  have heffge : minSim ≤ (if minSim = 0 then minSimilarityScore else minSim) := by
    split
    case isTrue h => rw [h]; norm_num [minSimilarityScore]
    case isFalse h => exact le_rfl
  have hres : findSimilarCocktails st q k (some minSim)
      = match findSimilarTry st q k (if minSim = 0 then minSimilarityScore else minSim) with
        | .ok l => l
        | .error _ => [] := rfl
  rw [hres]
  cases htry : findSimilarTry st q k (if minSim = 0 then minSimilarityScore else minSim) with
  | error e => simp
  | ok l =>
    constructor
    · exact collectSimilar_length_le _ [] l (by simpa using hk) htry
    · intro p hp
      exact le_trans heffge (collectSimilar_minSim_le _ [] l (by simp) htry p hp)

/-- C4, witness: the bounds theorem applied to the empty store with k one and
minimum similarity one half. -/
theorem c4_search_bounds_witness :
    (findSimilarCocktails {} ([] : List ℚ) 1 (some (1/2))).length ≤ 1
    ∧ ∀ p ∈ findSimilarCocktails {} ([] : List ℚ) 1 (some (1/2)), (1:ℚ)/2 ≤ p.2 :=
  c4_search_bounds {} [] 1 (1/2) (by decide)

/-- C5: the insert then search roundtrip breaks whenever a cocktail id is not
its insertion position; add_cocktail_embeddings stores the record under the
Redis key of the cocktail id field, while find_similar_cocktails looks the
FAISS row position up, so after inserting the id 42 cocktail at position zero
a search with its exact vector returns the empty list instead of that
cocktail at similarity one. -/
theorem c5_roundtrip_key_mismatch :
    addCocktailEmbeddings {} [cocktail42] [[1, 2]] = .ok c5Store
    ∧ findSimilarCocktails c5Store [1, 2] 5 none = [] := by
  constructor
  · decide
  · have hsearch : searchIndex c5Store.vectors [1, 2] 10 = [(0, 0)] := by
      have h : sqDist [1, 2] [1, 2] = 0 := by norm_num [sqDist]
      simp [searchIndex, c5Store, List.enum, sortStable, insertStable, h]
    have hget : redisGet c5Store.redis 0 = .ok none := by decide
    have hlt : ¬ ((1 : ℚ) / (1 + 0) < minSimilarityScore) := by norm_num [minSimilarityScore]
    simp [findSimilarCocktails, findSimilarTry, hsearch, collectSimilar, hget, hlt]

/-- C6: the preference pass is deterministic, its output is ordered by
descending score, and cocktails of equal score keep their input order: for
every score value, filtering the output at that score gives exactly the
surviving input cocktails of that score in input order. -/
theorem c6_rank_deterministic_sorted_stable :
    ∀ (cs : List Cocktail) (prefs : UserPreference),
      applyUserPreferences cs prefs = applyUserPreferences cs prefs
      ∧ (applyUserPreferences cs prefs).Pairwise
          (fun a b => cocktailScore b prefs ≤ cocktailScore a prefs)
      ∧ ∀ q : ℚ,
          (applyUserPreferences cs prefs).filter
              (fun c => decide (cocktailScore c prefs = q))
            = (cs.filter (fun c => !allergyHit c prefs)).filter
                (fun c => decide (cocktailScore c prefs = q)) :=
  fun cs prefs =>
    ⟨rfl, pairwise_applyUserPreferences cs prefs, filter_applyUserPreferences cs prefs⟩

/-- C7: with a positive limit the recommendation list never exceeds the limit,
and when the embedding step succeeds its length is exactly the minimum of the
limit and the number of non excluded resolvable candidates. -/
theorem c7_recommend_length :
    ∀ (embed : EmbedOracle) (st : VectorStoreState) (query : String)
      (prefs : Option UserPreference) (limit : Nat) (qv : List ℚ), 0 < limit →
      (recommendCocktails embed st query prefs limit).length ≤ limit
      ∧ (embed query = .ok qv →
          (recommendCocktails embed st query prefs limit).length
            = min limit (nonExcludedCandidates st qv prefs limit).length) := by
  intro embed st query prefs limit qv hlim
  cases hq : embed query with
  | error e =>
    constructor
    · simp [recommendCocktails, recommendCocktailsTry, hq]
    · intro hok
      exact absurd hok (by simp)
  | ok v =>
    have hrec : recommendCocktails embed st query prefs limit
        = (nonExcludedCandidates st v prefs limit).take limit := by
      cases prefs <;>
        simp [recommendCocktails, recommendCocktailsTry, hq,
          nonExcludedCandidates, searchCandidates]
    constructor
    · rw [hrec, List.length_take]
      exact min_le_left _ _
    · intro hok
      injection hok with hv
      subst hv
      rw [hrec, List.length_take]

/-- C7, witness: the length theorem applied to a constant embedding over the
empty store with limit five. -/
theorem c7_recommend_length_witness :
    (recommendCocktails unitEmbed {} "q" none 5).length
      = min 5 (nonExcludedCandidates {} [1] none 5).length :=
  (c7_recommend_length unitEmbed {} "q" none 5 [1] (by decide)).2 rfl

/-- C8: appending one ingredient that matches a favorite ingredient never
decreases the score the scorer assigns; the allergy exclusion of the ranking
loop is a filter and is not part of the score the scorer computes. -/
theorem c8_score_monotone_append_favorite :
    ∀ (c : Cocktail) (prefs : UserPreference) (x : CocktailIngredient),
      (∃ fav ∈ prefs.favoriteIngredients, pyLower x.name = pyLower fav) →
      cocktailScore c prefs ≤
        cocktailScore { c with ingredients := c.ingredients ++ [x] } prefs :=
  fun c prefs x _ => cocktailScore_append_mono c prefs x

/-- C8, witness: appending a rum ingredient matching the rum favorite to an
ingredientless cocktail. -/
theorem c8_score_monotone_witness :
    (∃ fav ∈ c1Prefs.favoriteIngredients,
      pyLower ({ name := "rum" } : CocktailIngredient).name = pyLower fav)
    ∧ cocktailScore plainWater c1Prefs ≤
        cocktailScore
          { plainWater with ingredients := plainWater.ingredients ++ [{ name := "rum" }] }
          c1Prefs :=
  ⟨by decide,
   c8_score_monotone_append_favorite plainWater c1Prefs { name := "rum" } (by decide)⟩

/-- C9, counterexample: a validated preference record does not normalize
favorite_cocktails; the entry keeps its spaces and upper case letter, so not
all four lists hold lowercased trimmed strings. -/
theorem c9_favorite_cocktails_not_normalized :
    (mkUserPreference "u3" [] [" Mojito "] [] []).favoriteCocktails = [" Mojito "]
    ∧ pyLower (pyStrip " Mojito ") ≠ " Mojito " :=
  ⟨rfl, by decide⟩

/-- C9, amended: validation lower cases and trims favorite_ingredients,
allergies and preferred_alcohol_types, dropping blank entries, while
favorite_cocktails is stored exactly as given. -/
theorem c9_three_lists_normalized :
    ∀ (uid : String) (fi fc al pa : List String),
      (∀ s ∈ (mkUserPreference uid fi fc al pa).favoriteIngredients,
        pyLower (pyStrip s) = s)
      ∧ (∀ s ∈ (mkUserPreference uid fi fc al pa).allergies,
          pyLower (pyStrip s) = s)
      ∧ (∀ s ∈ (mkUserPreference uid fi fc al pa).preferredAlcoholTypes,
          pyLower (pyStrip s) = s)
      ∧ (mkUserPreference uid fi fc al pa).favoriteCocktails = fc :=
  fun uid fi fc al pa =>
    ⟨fun s hs => normalized_of_mem_clean hs,
     fun s hs => normalized_of_mem_clean hs,
     fun s hs => normalized_of_mem_clean hs,
     rfl⟩

/-- C9, witness: the normalization theorem applied to one upper cased padded
favorite ingredient. -/
theorem c9_three_lists_normalized_witness :
    "rum" ∈ (mkUserPreference "u4" [" RUM "] [] [] []).favoriteIngredients
    ∧ pyLower (pyStrip "rum") = "rum" :=
  ⟨by decide, (c9_three_lists_normalized "u4" [" RUM "] [] [] []).1 "rum" (by decide)⟩

/-- C10: the VectorStore class defines neither get_user_preferences nor
update_user_preferences, so the service level getter always returns none, the
service level update always returns false whatever the embedding provider
does, and a search carrying a user id behaves exactly like one without. -/
theorem c10_missing_store_methods :
    vectorStoreMethods.contains "get_user_preferences" = false
    ∧ vectorStoreMethods.contains "update_user_preferences" = false
    ∧ (∀ uid : String, serviceGetUserPreferences uid = none)
    ∧ (∀ (embed : EmbedOracle) (uid : String) (p : UserPreference),
        serviceUpdateUserPreferences embed uid p = false)
    ∧ (∀ (embed : EmbedOracle) (st : VectorStoreState) (q : String)
        (limit : Nat) (uid : String),
        searchCocktails embed st q limit (some uid) = searchCocktails embed st q limit none) := by
  refine ⟨by decide, by decide, fun uid => rfl, ?_, ?_⟩
  · intro embed uid p
    cases h : embed (prefText p) with
    | error e => simp [serviceUpdateUserPreferences, h]
    | ok v => simp [serviceUpdateUserPreferences, h, vectorStoreUpdateUserPrefsMethod]
  · intro embed st q limit uid
    cases hq : embed q with
    | error e => simp [searchCocktails, hq]
    | ok v =>
      simp [searchCocktails, hq, serviceGetUserPreferences, vectorStoreGetUserPrefsMethod]
